import Mathlib

/-
Verification of the stratified benchmark sampler (`benchmark_sampler.py`).

The development shallowly embeds the script's pure core: duration parsing,
metadata derivation, id extraction, the duration filter, the segment-to-stratum
join, per-stratum bounded sampling without replacement, and the output
assembly.  Dataframe rows become typed records, columns become fields, and the
global seeded random generator becomes an explicitly threaded deterministic
state machine.  Strings are handled as `List Char` throughout so that every
definition evaluates by kernel reduction; missing (NaN) cells are `Option`
values with `none` for NaN.
-/

namespace BenchmarkSampler

/-! ## Configuration constants (from the script header) -/

/-- Target number of segments to select from each stratum
(`SEGMENTS_PER_STRATUM = 130`). -/
def SEGMENTS_PER_STRATUM : Nat := 130

/-- Minimum duration in seconds for segments to be considered
(`MIN_SEGMENT_DURATION = 0.5`).  The float literal `0.5` is exactly
representable, so the rational `1/2` is a faithful model. -/
def MIN_SEGMENT_DURATION : ℚ := mkRat 1 2

/-- Maximum duration in seconds (`MAX_SEGMENT_DURATION = 30.0`). -/
def MAX_SEGMENT_DURATION : ℚ := (30 : ℚ)

/-- Seed for reproducibility (`RANDOM_SEED = 42`). -/
def RANDOM_SEED : Nat := 42

/-- Base value of the sequential id column in the formatted output
(`range(2159570, ...)`). -/
def BASE_SEQ_ID : Nat := 2159570

/-! ## String helpers modelling the Python primitives used by the script -/

/-- Python `str.split(sep)` with a one-character separator: splits on every
occurrence of `sep`, keeping empty parts, and yields `[[]]` on the empty
string (Python: `"".split(':') == ['']`). -/
def splitOnChar (sep : Char) : List Char → List (List Char)
  | [] => [[]]
  | c :: rest =>
    let r := splitOnChar sep rest
    if c = sep then [] :: r
    else
      match r with
      | [] => [[c]]
      | p :: ps => (c :: p) :: ps

/-- Numeric value of a list of decimal digit characters. -/
def digitsVal (l : List Char) : Nat :=
  l.foldl (fun n c => 10 * n + (c.toNat - 48)) 0

/-- Parses a nonempty all-digit character list; `none` models a `ValueError`. -/
def parseDigits (l : List Char) : Option Nat :=
  if !l.isEmpty && l.all Char.isDigit then some (digitsVal l) else none

/-- Python `int(str)` on a (trimmed) literal: an optional sign followed by one
or more decimal digits; `none` models the `ValueError` raised otherwise. -/
def pyInt (l : List Char) : Option Int :=
  match l with
  | [] => none
  | c :: rest =>
    if c = '-' then (parseDigits rest).map (fun n => -(n : Int))
    else if c = '+' then (parseDigits rest).map (fun n => (n : Int))
    else (parseDigits (c :: rest)).map (fun n => (n : Int))

/-- Python substring test `needle in hay` on character lists. -/
def containsSub (needle : List Char) : List Char → Bool
  | [] => needle.isEmpty
  | c :: rest => needle.isPrefixOf (c :: rest) || containsSub needle rest

/-- Python `str.lower()` restricted to the ASCII range (the names in this
dataset are ASCII; `Char.toLower` lowercases exactly the ASCII uppercase
letters). -/
def strLower (s : String) : List Char := s.toList.map Char.toLower

/-! ## `parse_duration`: `HH:MM:SS` string to seconds

The source:
```
def parse_duration(time_str):
    if pd.isna(time_str):
        return 0
    h, m, s = map(int, time_str.split(':'))
    return h * 3600 + m * 60 + s
```
The input is `Option String` with `none` for a NaN cell; the result is
`Option Int`, with `none` modelling an uncaught exception (a split that does
not produce exactly three parts, or a part `int()` rejects). -/

/-- Model of `parse_duration`; `none` on input is NaN, `none` on output is a
raised `ValueError`. -/
def parse_duration (time_str : Option String) : Option Int :=
  match time_str with
  | none => some 0
  | some s =>
    match (splitOnChar ':' s.toList).map pyInt with
    | [some h, some m, some sec] => some (h * 3600 + m * 60 + sec)
    | _ => none

/-- Model of `duration_category`: short / medium / long buckets. -/
def duration_category (seconds : Int) : String :=
  if seconds < 300 then "short"
  else if seconds < 900 then "medium"
  else "long"

/-- Model of `extract_content_type`: case-insensitive substring match on the
display name, in the source's fixed priority order. -/
def extract_content_type (filename : String) : String :=
  let lower_name := strLower filename
  if containsSub "qa".toList lower_name then "Q&A"
  else if containsSub "practice".toList lower_name then "Practice"
  else if containsSub "dedication".toList lower_name
       || containsSub "prayer".toList lower_name then "Prayer"
  else "Teaching"

/-- Leading literal of the segment-id pattern `(STT_GR_\d+)_`. -/
def STT_PREFIX : List Char := "STT_GR_".toList

/-- Model of `extract_original_id`: `re.match(r'(STT_GR_\d+)_', segment_id)`
anchored at the start; on success the captured group `STT_GR_<digits>` is
returned, otherwise the whole segment id (`\d` is modelled by the ASCII
`Char.isDigit`, which covers the catalog's identifiers). -/
def extract_original_id (segment_id : String) : String :=
  let cs := segment_id.toList
  if STT_PREFIX.isPrefixOf cs then
    let rest := cs.drop STT_PREFIX.length
    let ds := rest.takeWhile Char.isDigit
    if !ds.isEmpty && (rest.drop ds.length).head? = some '_' then
      String.mk (STT_PREFIX ++ ds)
    else segment_id
  else segment_id

/-! ## Data model -/

/-- Row of the raw catalog table `gr_catalog.csv`: columns `ID`, `Filename`,
`Original Full Audio Duration` (a NaN cell is `none`) and `AGE`. -/
structure CatalogRow where
  ID : String
  Filename : String
  rawDuration : Option String
  AGE : String
deriving DecidableEq

/-- Row of the segments table `GR.csv`: columns `file_name`, `url`,
`audio_duration` (float; `none` is NaN) and the optional
`inference_transcript` (`none` is a NaN cell). -/
structure SegmentRow where
  file_name : String
  url : String
  audio_duration : Option ℚ
  inference_transcript : Option String
deriving DecidableEq

/-- Catalog row after the derivation step of `main`: `split_duration_seconds`,
`duration_category`, `content_type` and the composite `strata` key
`f"{AGE}__{duration_category}__{content_type}"`. -/
structure EnrichedCat where
  ID : String
  Filename : String
  AGE : String
  split_duration_seconds : Int
  duration_category : String
  content_type : String
  strata : String
deriving DecidableEq

/-- Valid segment joined to its parent's stratum key (`original_id` and
`strata` columns added to `valid_segments`). -/
structure JoinedSeg where
  seg : SegmentRow
  original_id : String
  strata : String
deriving DecidableEq

/-- Row of `benchmark_df` after the metadata merge: the joined segment plus
the `age_group`, `duration_category` and `content_type` columns. -/
structure BenchRow where
  seg : SegmentRow
  original_id : String
  strata : String
  age_group : String
  duration_category : String
  content_type : String
deriving DecidableEq

/-- Row of `benchmark_for_upload.csv`; the fields are declared in the
source's `columns_order`
`[file_name, url, inference_transcript, audio_duration, group_id, state, id]`. -/
structure FormattedRow where
  file_name : String
  url : String
  inference_transcript : Option String
  audio_duration : Option ℚ
  group_id : Nat
  state : String
  id : Nat
deriving DecidableEq

/-- Row of `segment_strata_mapping.csv`: columns
`[file_name, original_id, strata, audio_duration]`. -/
structure MappingRow where
  file_name : String
  original_id : String
  strata : String
  audio_duration : Option ℚ
deriving DecidableEq

/-- One object of `benchmark_annotation.json`; `transcript` is `none` when
the Python value is NaN. -/
structure JsonRow where
  id : String
  url : String
  duration : Option ℚ
  original_file_id : String
  age_group : String
  content_type : String
  duration_category : String
  strata : String
  transcript : Option String
deriving DecidableEq

/-! ## Duration filter -/

/-- Boolean mask of the duration filter
`(d >= MIN_SEGMENT_DURATION) & (d <= MAX_SEGMENT_DURATION)`: every
comparison against NaN is `False` in pandas, so a `none` duration is
excluded. -/
def durationOK (d : Option ℚ) : Bool :=
  match d with
  | none => false
  | some q => decide (MIN_SEGMENT_DURATION ≤ q) && decide (q ≤ MAX_SEGMENT_DURATION)

/-- Model of the `valid_segments` selection (row order preserved). -/
def filterSegments (segs : List SegmentRow) : List SegmentRow :=
  segs.filter (fun s => durationOK s.audio_duration)

/-! ## Catalog enrichment and the segment-to-stratum join -/

/-- Model of the per-row catalog derivation in `main`; `none` when
`parse_duration` raises, which aborts the script. -/
def enrichCat (c : CatalogRow) : Option EnrichedCat :=
  (parse_duration c.rawDuration).map (fun secs =>
    let dc := duration_category secs
    let ct := extract_content_type c.Filename
    ⟨c.ID, c.Filename, c.AGE, secs, dc, ct, c.AGE ++ "__" ++ dc ++ "__" ++ ct⟩)

/-- Enrichment of the whole catalog; `none` if any row raises. -/
def enrichCatalog (cat : List CatalogRow) : Option (List EnrichedCat) :=
  cat.mapM enrichCat

/-- Lookup in a Python `dict` built by insertion in list order: a later
binding of the same key overwrites an earlier one, so the LAST matching pair
wins. -/
def lastLookup {α : Type} : List (String × α) → String → Option α
  | [], _ => none
  | (k, v) :: t, key =>
    match lastLookup t key with
    | some r => some r
    | none => if k = key then some v else none

/-- Model of `id_to_strata = dict(zip(catalog_df['ID'], catalog_df['strata']))`. -/
def id_to_strata (cat : List EnrichedCat) (key : String) : Option String :=
  lastLookup (cat.map (fun e => (e.ID, e.strata))) key

/-- Model of `id_to_metadata` (the whole enriched row is kept; the script's
dict holds the `AGE`, `duration_category`, `content_type` columns of it). -/
def metaLookup (cat : List EnrichedCat) (key : String) : Option EnrichedCat :=
  lastLookup (cat.map (fun e => (e.ID, e))) key

/-- Model of the join: duration filter, `original_id` extraction, strata map,
and `dropna(subset=['strata'])` — a segment whose extracted id resolves to no
catalog entry is silently dropped. -/
def joinSegments (cat : List EnrichedCat) (segs : List SegmentRow) : List JoinedSeg :=
  (filterSegments segs).filterMap (fun s =>
    (id_to_strata cat (extract_original_id s.file_name)).map
      (fun st => ⟨s, extract_original_id s.file_name, st⟩))

/-- Model of the `segment_strata_mapping.csv` table
(`valid_segments[['file_name', 'original_id', 'strata', 'audio_duration']]`). -/
def strataMapping (cat : List EnrichedCat) (segs : List SegmentRow) : List MappingRow :=
  (joinSegments cat segs).map (fun j => ⟨j.seg.file_name, j.original_id, j.strata, j.seg.audio_duration⟩)

/-! ## Stratified sampler

The script seeds numpy's global generator once (`np.random.seed(RANDOM_SEED)`)
and then, iterating over the strata in `Counter` order (first occurrence),
either keeps a whole small group or calls `DataFrame.sample(n)` which draws
`n` distinct row positions from the seeded global stream.  The generator is
embedded as an explicitly threaded deterministic state machine: a `draw`
function maps a state and a bound `n` to a chosen index and a successor
state.  Every theorem below holds for an arbitrary `draw` whose index is in
range, which covers the Mersenne-Twister stream the script actually uses. -/

/-- One step of a linear congruential generator; a concrete stand-in for the
seeded global generator, used to instantiate the witnesses. -/
def lcg (s : Nat) : Nat :=
  (6364136223846793005 * s + 1442695040888963407) % 2 ^ 64

/-- Concrete draw function: next state and an index below the bound. -/
def lcgDraw (s : Nat) (n : Nat) : Nat × Nat :=
  (lcg s % n, lcg s)

/-- Sampling without replacement: `n` times, draw an index among the rows
still available, output that row and remove it.  This is the contract of
`DataFrame.sample(n)` on the seeded stream, with the state threaded through. -/
def sampleWOR {σ α : Type} (draw : σ → Nat → Nat × σ) : σ → List α → Nat → List α × σ
  | s, _, 0 => ([], s)
  | s, [], _ + 1 => ([], s)
  | s, x :: xs, n + 1 =>
    let p := draw s (x :: xs).length
    let y := (x :: xs).getD p.1 x
    let rest := (x :: xs).eraseIdx p.1
    let q := sampleWOR draw p.2 rest n
    (y :: q.1, q.2)

/-- Per-stratum selection of `main`'s loop body:
`target_count = min(SEGMENTS_PER_STRATUM, len(...))`, take all when the group
is not larger than the target (consuming no randomness), otherwise sample
`target_count` rows. -/
def sampleStratum {σ : Type} (draw : σ → Nat → Nat × σ) (s : σ) (T : Nat)
    (g : List JoinedSeg) : List JoinedSeg × σ :=
  let target := min T g.length
  if g.length ≤ target then (g, s)
  else sampleWOR draw s g target

/-- Rows of the working set belonging to one stratum
(`valid_segments[valid_segments['strata'] == stratum]`, row order kept). -/
def stratumGroup (joined : List JoinedSeg) (k : String) : List JoinedSeg :=
  joined.filter (fun j => j.strata = k)

/-- Stratum keys in `Counter` iteration order: first occurrence among the
joined rows, each key once. -/
def strataKeys (joined : List JoinedSeg) : List String :=
  (joined.map (fun j => j.strata)).foldl
    (fun acc x => if x ∈ acc then acc else acc ++ [x]) []

/-- Selection lists of the sampling loop, one per stratum key, with the
generator state threaded from one stratum to the next. -/
def runStrata {σ : Type} (draw : σ → Nat → Nat × σ) :
    σ → Nat → List JoinedSeg → List String → List (List JoinedSeg)
  | _, _, _, [] => []
  | s, T, joined, k :: ks =>
    let p := sampleStratum draw s T (stratumGroup joined k)
    p.1 :: runStrata draw p.2 T joined ks

/-- Model of the whole sampling loop plus `pd.concat(benchmark_segments)`. -/
def stratifiedSample {σ : Type} (draw : σ → Nat → Nat × σ) (s : σ) (T : Nat)
    (joined : List JoinedSeg) : List JoinedSeg :=
  (runStrata draw s T joined (strataKeys joined)).flatten

/-! ## Output assembly -/

/-- Metadata merge of `main`: the three label columns are looked up by
`original_id` with default `'Unknown'` when the id is absent from the dict. -/
def addLabels (cat : List EnrichedCat) (j : JoinedSeg) : BenchRow :=
  ⟨j.seg, j.original_id, j.strata,
    (match metaLookup cat j.original_id with | some e => e.AGE | none => "Unknown"),
    (match metaLookup cat j.original_id with | some e => e.duration_category | none => "Unknown"),
    (match metaLookup cat j.original_id with | some e => e.content_type | none => "Unknown")⟩

/-- One row of the ingestion-formatted table: fixed `group_id = 33`, fixed
`state = 'transcribing'`, sequential `id = base + position`; when the input
table has no `inference_transcript` column (`hasCol = false`) the script adds
one filled with the empty string, otherwise the row's own value (possibly
NaN) is kept. -/
def formatRow (hasCol : Bool) (base i : Nat) (b : BenchRow) : FormattedRow :=
  ⟨b.seg.file_name, b.seg.url,
    (if hasCol then b.seg.inference_transcript else some ""),
    b.seg.audio_duration, 33, "transcribing", base + i⟩

/-- Model of `benchmark_for_upload.csv` built from `benchmark_df` in row
order with `id = range(base, base + len)`. -/
def formatRows (hasCol : Bool) (base : Nat) (rows : List BenchRow) : List FormattedRow :=
  rows.enum.map (fun p => formatRow hasCol base p.1 p.2)

/-- One object of the annotation JSON; the transcript is
`row['inference_transcript'] if 'inference_transcript' in row.index else ""`,
so a present-but-NaN cell passes through as `none` while an absent column
yields the empty string. -/
def jsonRow (hasCol : Bool) (b : BenchRow) : JsonRow :=
  ⟨b.seg.file_name, b.seg.url, b.seg.audio_duration, b.original_id,
    b.age_group, b.content_type, b.duration_category, b.strata,
    (if hasCol then b.seg.inference_transcript else some "")⟩

/-- In-memory outputs of one run of `main` (file writing stripped). -/
structure PipelineOut where
  selection : List BenchRow
  formatted : List FormattedRow
  mapping : List MappingRow
  jsonOut : List JsonRow
deriving DecidableEq

/-- Model of `main` as a pure function of the two input tables, the
transcript-column flag, the target, the base id and the seeded generator;
`none` models the script aborting inside catalog enrichment. -/
def runPipeline {σ : Type} (draw : σ → Nat → Nat × σ) (s0 : σ) (T base : Nat)
    (hasCol : Bool) (cat : List CatalogRow) (segs : List SegmentRow) :
    Option PipelineOut :=
  (enrichCatalog cat).map (fun ecat =>
    let sel := (stratifiedSample draw s0 T (joinSegments ecat segs)).map (addLabels ecat)
    ⟨sel, formatRows hasCol base sel, strataMapping ecat segs, sel.map (jsonRow hasCol)⟩)

/-! ## Concrete inputs used by the witnesses and counterexamples -/

/-- Concrete catalog used by witnesses: one Adult Q&A entry of six minutes. -/
def witCatalogRow : CatalogRow :=
  ⟨"STT_GR_0001", "QA Session 1", some "00:06:00", "Adult"⟩

/-- Enriched form of `witCatalogRow` (checked by evaluation below). -/
def witECat : EnrichedCat :=
  ⟨"STT_GR_0001", "QA Session 1", "Adult", 360, "medium", "Q&A",
    "Adult__medium__Q&A"⟩

/-- Concrete segment rows sharing the stratum of `witCatalogRow`. -/
def witSeg1 : SegmentRow :=
  ⟨"STT_GR_0001_0003_22300_to_27800", "http://a", some 5, some "t1"⟩

/-- Second concrete segment row. -/
def witSeg2 : SegmentRow :=
  ⟨"STT_GR_0001_0004_27800_to_31000", "http://b", some (mkRat 1 2), none⟩

/-- Joined form of `witSeg1`. -/
def witJoined1 : JoinedSeg := ⟨witSeg1, "STT_GR_0001", "Adult__medium__Q&A"⟩

/-- Joined form of `witSeg2`. -/
def witJoined2 : JoinedSeg := ⟨witSeg2, "STT_GR_0001", "Adult__medium__Q&A"⟩

/-! ## Helper lemmas -/

/-- Digit-string parsing never yields a negative integer. -/
theorem pyInt_nonneg (l : List Char) (hdig : l.all Char.isDigit = true)
    (k : Int) (hk : pyInt l = some k) : 0 ≤ k := by
  cases l with
  | nil => simp [pyInt] at hk
  | cons c rest =>
    by_cases hc : c = '-'
    · subst hc
      simp [List.all_cons] at hdig
    · by_cases hc2 : c = '+'
      · subst hc2
        simp [List.all_cons] at hdig
      · simp only [pyInt, hc, hc2, if_false] at hk
        cases hpd : parseDigits (c :: rest) with
        | none => rw [hpd] at hk; simp at hk
        | some n =>
          rw [hpd] at hk
          have hn : (n : Int) = k := Option.some.inj hk
          omega

/-- Characters taken by `takeWhile` from a front block that wholly satisfies
the predicate. -/
theorem takeWhile_append_all {p : Char → Bool} :
    ∀ {l₁ : List Char} (l₂ : List Char), (∀ a ∈ l₁, p a = true) →
      (l₁ ++ l₂).takeWhile p = l₁ ++ l₂.takeWhile p
  | [], l₂, _ => by simp
  | a :: l₁, l₂, h => by
    have ha : p a = true := h a (by simp)
    simp only [List.cons_append, List.takeWhile_cons, ha, if_true]
    rw [takeWhile_append_all l₂ (fun b hb => h b (by simp [hb]))]

/-! ## Claim theorems -/

/-- C2: for a fixed filtered and partitioned input and a fixed seed, two runs
of the stratified sampler produce identical selections (same members, same
multiplicity): the sampler is a deterministic function of the input table and
the generator state.  The seeded global numpy generator is embedded as the
threaded deterministic `draw` machine, so a run is literally a pure function
application. -/
theorem C2_sampler_deterministic {σ : Type} (draw : σ → Nat → Nat × σ)
    (s1 s2 : σ) (T : Nat) (j1 j2 : List JoinedSeg)
    (hs : s1 = s2) (hj : j1 = j2) :
    stratifiedSample draw s1 T j1 = stratifiedSample draw s2 T j2 := by
  rw [hs, hj]

/-- Witness for C2 at the concrete seed 42 and a concrete two-row input. -/
theorem C2_sampler_deterministic_witness :
    stratifiedSample lcgDraw RANDOM_SEED SEGMENTS_PER_STRATUM [witJoined1, witJoined2]
      = stratifiedSample lcgDraw RANDOM_SEED SEGMENTS_PER_STRATUM [witJoined1, witJoined2] :=
  C2_sampler_deterministic lcgDraw RANDOM_SEED RANDOM_SEED SEGMENTS_PER_STRATUM
    [witJoined1, witJoined2] [witJoined1, witJoined2] rfl rfl

/-- C3: the duration filter keeps exactly the segments whose duration `d`
satisfies `MIN ≤ d ≤ MAX` (defaults 0.5 and 30.0): both bounds inclusive,
strictly outside excluded, and a missing/NaN duration excluded rather than an
error (every pandas comparison against NaN is false). -/
theorem C3_duration_filter (segs : List SegmentRow) (s : SegmentRow) :
    s ∈ filterSegments segs ↔
      s ∈ segs ∧ ∃ q : ℚ, s.audio_duration = some q ∧
        MIN_SEGMENT_DURATION ≤ q ∧ q ≤ MAX_SEGMENT_DURATION := by
  unfold filterSegments
  rw [List.mem_filter]
  refine and_congr_right (fun _ => ?_)
  cases hd : s.audio_duration with
  | none => simp [durationOK, hd]
  | some q =>
    simp only [durationOK, hd, Bool.and_eq_true, decide_eq_true_eq]
    constructor
    · rintro ⟨h1, h2⟩
      exact ⟨q, rfl, h1, h2⟩
    · rintro ⟨q', hq', h1, h2⟩
      cases hq'
      exact ⟨h1, h2⟩

/-- Witness for C3: a segment of duration exactly 0.5 s (the lower bound) is
kept by the filter. -/
theorem C3_duration_filter_witness :
    witSeg2 ∈ filterSegments [witSeg1, witSeg2] :=
  (C3_duration_filter [witSeg1, witSeg2] witSeg2).mpr
    ⟨by decide, mkRat 1 2, by decide, by decide, by decide⟩

/-- C4 counterexample: `parse_duration` propagates an exception (`none`) on
the unparseable string `"abc"` instead of yielding 0, and returns the
negative value `-300` on `"0:-5:0"`; both refute the claim that parsing
always returns a non-negative integer and maps any malformed input to 0. -/
theorem C4_counterexample :
    parse_duration (some "abc") = none ∧
    parse_duration (some "0:-5:0") = some (-300) := by
  constructor
  · decide
  · decide

/-- C4 amended: an absent (NaN) input yields 0; when parsing succeeds and
every colon-separated part is a plain digit string, the result
`h*3600 + m*60 + s` is non-negative.  A malformed (non-`H:M:S`) string
raises `ValueError` (modelled `none`) instead of yielding 0, and a signed
negative component can make the result negative. -/
theorem C4_parse_duration_amended :
    parse_duration none = some 0 ∧
    ∀ (s : String) (k : Int), parse_duration (some s) = some k →
      (∀ p ∈ splitOnChar ':' s.toList, p.all Char.isDigit = true) → 0 ≤ k := by
  refine ⟨rfl, fun s k hk hdig => ?_⟩
  have hk' : (match (splitOnChar ':' s.toList).map pyInt with
      | [some h, some m, some sec] => some (h * 3600 + m * 60 + sec)
      | _ => none) = some k := hk
  split at hk'
  next a b c heq =>
    rcases hl : splitOnChar ':' s.toList with _ | ⟨p1, t1⟩ <;> rw [hl] at heq
    · simp at heq
    · rcases t1 with _ | ⟨p2, t2⟩
      · simp at heq
      · rcases t2 with _ | ⟨p3, t3⟩
        · simp at heq
        · rcases t3 with _ | ⟨p4, t4⟩
          · simp only [List.map_cons, List.map_nil, List.cons.injEq,
              and_true] at heq
            rcases heq with ⟨h1, h2, h3⟩
            have ha : 0 ≤ a := pyInt_nonneg p1 (hdig p1 (by rw [hl]; simp)) a h1
            have hb : 0 ≤ b := pyInt_nonneg p2 (hdig p2 (by rw [hl]; simp)) b h2
            have hc : 0 ≤ c := pyInt_nonneg p3 (hdig p3 (by rw [hl]; simp)) c h3
            have hkk : a * 3600 + b * 60 + c = k := Option.some.inj hk'
            omega
          · simp at heq
  next h =>
    exact absurd hk' (by simp)

/-- Witness for the amended C4 on the well-formed input `"01:02:03"`. -/
theorem C4_parse_duration_amended_witness :
    parse_duration (some "01:02:03") = some 3723 ∧ (0 : Int) ≤ 3723 :=
  ⟨by decide, C4_parse_duration_amended.2 "01:02:03" 3723 (by decide) (by decide)⟩

/-- C6: the derived content type follows case-insensitive substring matching
on the display name in fixed priority order: `"qa"` gives `Q&A`; otherwise
`"practice"` gives `Practice`; otherwise `"dedication"` or `"prayer"` gives
`Prayer`; otherwise `Teaching`.  The negated earlier conditions in each
clause state that the first matching rule wins. -/
theorem C6_content_type_priority (name : String) :
    (containsSub "qa".toList (strLower name) = true →
      extract_content_type name = "Q&A")
  ∧ (containsSub "qa".toList (strLower name) = false →
      containsSub "practice".toList (strLower name) = true →
      extract_content_type name = "Practice")
  ∧ (containsSub "qa".toList (strLower name) = false →
      containsSub "practice".toList (strLower name) = false →
      (containsSub "dedication".toList (strLower name) = true ∨
        containsSub "prayer".toList (strLower name) = true) →
      extract_content_type name = "Prayer")
  ∧ (containsSub "qa".toList (strLower name) = false →
      containsSub "practice".toList (strLower name) = false →
      containsSub "dedication".toList (strLower name) = false →
      containsSub "prayer".toList (strLower name) = false →
      extract_content_type name = "Teaching") := by
  unfold extract_content_type
  refine ⟨fun h1 => ?_, fun h1 h2 => ?_, fun h1 h2 h3 => ?_, fun h1 h2 h3 h4 => ?_⟩
  · simp_all
  · simp_all
  · rcases h3 with h3 | h3 <;> simp_all
  · simp_all

/-- Witness for C6: a name containing both `"practice"` and `"qa"` is
classified `Q&A` because the `"qa"` rule is checked first. -/
theorem C6_content_type_priority_witness :
    extract_content_type "Practice_QA" = "Q&A" :=
  (C6_content_type_priority "Practice_QA").1 (by decide)

/-- Drop of the `takeWhile` block equals `dropWhile`. -/
theorem drop_length_takeWhile (p : Char → Bool) :
    ∀ t : List Char, t.drop (t.takeWhile p).length = t.dropWhile p
  | [] => rfl
  | c :: t => by
    by_cases hc : p c
    · simp only [List.takeWhile_cons, List.dropWhile_cons, hc, if_true,
        List.length_cons, List.drop_succ_cons]
      exact drop_length_takeWhile p t
    · simp [List.takeWhile_cons, List.dropWhile_cons, hc]

/-- Matched case of `extract_original_id`: a name of the shape
`STT_GR_<digits>_<rest>` yields the leading `STT_GR_<digits>` token. -/
theorem extract_original_id_matched (s : String) :
    ∀ ds rest, s.toList = STT_PREFIX ++ ds ++ '_' :: rest →
      ds ≠ [] → (∀ c ∈ ds, c.isDigit = true) →
      extract_original_id s = String.mk (STT_PREFIX ++ ds) := by
  intro ds rest hs hne hdig
  have hpre : STT_PREFIX.isPrefixOf s.toList = true := by
    rw [hs, List.append_assoc]
    exact List.isPrefixOf_iff_prefix.mpr (List.prefix_append _ _)
  have hdrop : s.toList.drop STT_PREFIX.length = ds ++ '_' :: rest := by
    rw [hs, List.append_assoc, List.drop_left]
  have htake : (ds ++ '_' :: rest).takeWhile Char.isDigit = ds := by
    rw [takeWhile_append_all _ hdig]
    simp [List.takeWhile_cons]
  have hne' : ds.isEmpty = false := by
    cases ds with
    | nil => exact absurd rfl hne
    | cons a l => rfl
  unfold extract_original_id
  simp only [hpre, if_true, hdrop, htake, hne', Bool.not_false, Bool.true_and,
    List.drop_left, List.head?_cons]
  simp

/-- Unmatched case of `extract_original_id`: without a
`STT_GR_<digits>_<rest>` decomposition the whole name is returned. -/
theorem extract_original_id_unmatched (s : String)
    (hnex : ¬ ∃ ds rest, s.toList = STT_PREFIX ++ ds ++ '_' :: rest ∧
      ds ≠ [] ∧ ∀ c ∈ ds, c.isDigit = true) :
    extract_original_id s = s := by
  simp only [extract_original_id]
  split
  · next hpre =>
    split
    · next hcond =>
      exfalso
      apply hnex
      rcases List.isPrefixOf_iff_prefix.mp hpre with ⟨t, ht⟩
      have hdrop : s.toList.drop STT_PREFIX.length = t := by
        rw [← ht, List.drop_left]
      rw [hdrop] at hcond
      simp only [Bool.and_eq_true, Bool.not_eq_true', decide_eq_true_eq] at hcond
      obtain ⟨hne, hhd⟩ := hcond
      rw [drop_length_takeWhile] at hhd
      cases hdwl : t.dropWhile Char.isDigit with
      | nil => rw [hdwl] at hhd; simp at hhd
      | cons c tail =>
        rw [hdwl] at hhd
        simp only [List.head?_cons, Option.some.injEq] at hhd
        have ht2 : t = t.takeWhile Char.isDigit ++ '_' :: tail := by
          conv_lhs => rw [← @List.takeWhile_append_dropWhile _ Char.isDigit t]
          rw [hdwl, hhd]
        refine ⟨t.takeWhile Char.isDigit, tail, ?_, ?_, ?_⟩
        · rw [← ht]
          conv_lhs => rw [ht2]
          exact (List.append_assoc _ _ _).symm
        · intro h0
          rw [h0] at hne
          simp at hne
        · intro c hc
          exact List.mem_takeWhile_imp hc
    · rfl
  · rfl

/-- C10: `extract_original_id` always returns a prefix of its argument: on a
name of the shape `STT_GR_<digits>_<rest>` it returns the leading
`STT_GR_<digits>` token, and on any other name it returns the argument
unchanged (so it never raises and the result is always a prefix). -/
theorem C10_extract_original_id (s : String) :
    ((extract_original_id s).toList <+: s.toList)
  ∧ (∀ ds rest, s.toList = STT_PREFIX ++ ds ++ '_' :: rest →
      ds ≠ [] → (∀ c ∈ ds, c.isDigit = true) →
      extract_original_id s = String.mk (STT_PREFIX ++ ds))
  ∧ ((¬ ∃ ds rest, s.toList = STT_PREFIX ++ ds ++ '_' :: rest ∧
      ds ≠ [] ∧ ∀ c ∈ ds, c.isDigit = true) →
      extract_original_id s = s) := by
  refine ⟨?_, extract_original_id_matched s, extract_original_id_unmatched s⟩
  by_cases hex : ∃ ds rest, s.toList = STT_PREFIX ++ ds ++ '_' :: rest ∧
      ds ≠ [] ∧ ∀ c ∈ ds, c.isDigit = true
  · rcases hex with ⟨ds, rest, hs, hne, hdig⟩
    rw [extract_original_id_matched s ds rest hs hne hdig, hs]
    show STT_PREFIX ++ ds <+: STT_PREFIX ++ ds ++ '_' :: rest
    exact List.prefix_append _ _
  · rw [extract_original_id_unmatched s hex]
/-- Witness for C10 on a real segment id: the leading `STT_GR_0001` token is
extracted and is a prefix of the input. -/
theorem C10_extract_original_id_witness :
    extract_original_id "STT_GR_0001_0003_22300_to_27800" = "STT_GR_0001" :=
  ((C10_extract_original_id "STT_GR_0001_0003_22300_to_27800").2.1
    "0001".toList "0003_22300_to_27800".toList (by decide) (by decide)
    (by decide)).trans (by decide)

/-! ## Sampler lemmas -/

/-- Removing the element at a valid index is a permutation complement. -/
theorem perm_cons_eraseIdx {α : Type} (l : List α) (i : Nat) (h : i < l.length) :
    List.Perm l (l[i] :: l.eraseIdx i) := by
  conv_lhs => rw [← List.take_append_drop i l, ← List.getElem_cons_drop l i h]
  rw [List.eraseIdx_eq_take_drop_succ]
  exact List.perm_middle

/-- Sampling without replacement returns exactly `n` rows when `n` rows are
available, provided every draw is in range. -/
theorem sampleWOR_length {σ α : Type} (draw : σ → Nat → Nat × σ)
    (hdraw : ∀ s n, 0 < n → (draw s n).1 < n) :
    ∀ (n : Nat) (s : σ) (l : List α), n ≤ l.length →
      ((sampleWOR draw s l n).1).length = n := by
  intro n
  induction n with
  | zero => intro s l _; cases l <;> rfl
  | succ n ih =>
    intro s l h
    cases l with
    | nil => simp at h
    | cons x xs =>
      simp only [List.length_cons] at h
      have hlt : (draw s (xs.length + 1)).1 < xs.length + 1 :=
        hdraw s (xs.length + 1) (Nat.succ_pos _)
      have hrest : n ≤ ((x :: xs).eraseIdx (draw s (xs.length + 1)).1).length := by
        rw [List.length_eraseIdx_of_lt (by simpa using hlt)]
        simp only [List.length_cons]
        omega
      simp only [sampleWOR, List.length_cons, ih _ _ hrest]

/-- Sampling never uses a row more often than the input provides it. -/
theorem sampleWOR_count {σ α : Type} [DecidableEq α] (draw : σ → Nat → Nat × σ)
    (hdraw : ∀ s n, 0 < n → (draw s n).1 < n) :
    ∀ (n : Nat) (s : σ) (l : List α) (a : α),
      ((sampleWOR draw s l n).1).count a ≤ l.count a := by
  intro n
  induction n with
  | zero => intro s l a; simp [sampleWOR]
  | succ n ih =>
    intro s l a
    cases l with
    | nil => simp [sampleWOR]
    | cons x xs =>
      have hlt : (draw s (x :: xs).length).1 < (x :: xs).length :=
        hdraw s _ (by simp)
      have hy : (x :: xs).getD (draw s (x :: xs).length).1 x
          = (x :: xs)[(draw s (x :: xs).length).1] :=
        List.getD_eq_getElem _ _ hlt
      have hcount := (perm_cons_eraseIdx (x :: xs) _ hlt).count_eq a
      simp only [sampleWOR, hy]
      rw [hcount, List.count_cons, List.count_cons]
      exact Nat.add_le_add_right (ih _ _ a) _

/-- Every sampled row comes from the input list. -/
theorem sampleWOR_subset {σ α : Type} (draw : σ → Nat → Nat × σ) :
    ∀ (n : Nat) (s : σ) (l : List α) (x : α),
      x ∈ (sampleWOR draw s l n).1 → x ∈ l := by
  intro n
  induction n with
  | zero => intro s l x hx; simp [sampleWOR] at hx
  | succ n ih =>
    intro s l x hx
    cases l with
    | nil => simp [sampleWOR] at hx
    | cons y ys =>
      simp only [sampleWOR] at hx
      rcases List.mem_cons.mp hx with rfl | hx'
      · by_cases hi : (draw s (y :: ys).length).1 < (y :: ys).length
        · rw [List.getD_eq_getElem _ _ hi]
          exact List.getElem_mem _
        · rw [List.getD_eq_default _ _ (Nat.le_of_not_lt hi)]
          exact List.mem_cons_self _ _
      · exact List.eraseIdx_subset _ _ (ih _ _ x hx')

/-- Sampling from a duplicate-free list yields a duplicate-free sample. -/
theorem sampleWOR_nodup {σ α : Type} [DecidableEq α] (draw : σ → Nat → Nat × σ)
    (hdraw : ∀ s n, 0 < n → (draw s n).1 < n)
    (n : Nat) (s : σ) (l : List α) (hl : l.Nodup) :
    ((sampleWOR draw s l n).1).Nodup := by
  rw [List.nodup_iff_count_le_one] at hl ⊢
  intro a
  exact le_trans (sampleWOR_count draw hdraw n s l a) (hl a)

/-- Small groups are taken whole by the per-stratum step. -/
theorem sampleStratum_all {σ : Type} (draw : σ → Nat → Nat × σ) (s : σ) (T : Nat)
    (g : List JoinedSeg) (h : g.length ≤ T) :
    (sampleStratum draw s T g).1 = g := by
  unfold sampleStratum
  rw [Nat.min_eq_right h, if_pos (le_refl _)]

/-- The per-stratum step always selects `min T (group size)` rows. -/
theorem sampleStratum_length {σ : Type} (draw : σ → Nat → Nat × σ)
    (hdraw : ∀ s n, 0 < n → (draw s n).1 < n) (s : σ) (T : Nat)
    (g : List JoinedSeg) :
    ((sampleStratum draw s T g).1).length = min T g.length := by
  by_cases h : g.length ≤ T
  · rw [sampleStratum_all draw s T g h, Nat.min_eq_right h]
  · have hTg : T < g.length := Nat.lt_of_not_le h
    unfold sampleStratum
    rw [Nat.min_eq_left (Nat.le_of_lt hTg), if_neg (by omega)]
    exact sampleWOR_length draw hdraw T s g (Nat.le_of_lt hTg)

/-- The per-stratum step never duplicates a row of the group. -/
theorem sampleStratum_count {σ : Type} (draw : σ → Nat → Nat × σ)
    (hdraw : ∀ s n, 0 < n → (draw s n).1 < n) (s : σ) (T : Nat)
    (g : List JoinedSeg) (a : JoinedSeg) :
    ((sampleStratum draw s T g).1).count a ≤ g.count a := by
  unfold sampleStratum
  by_cases h : g.length ≤ min T g.length
  · rw [if_pos h]
  · rw [if_neg h]
    exact sampleWOR_count draw hdraw _ s g a

/-- Every row selected by the per-stratum step belongs to the group. -/
theorem sampleStratum_subset {σ : Type} (draw : σ → Nat → Nat × σ) (s : σ)
    (T : Nat) (g : List JoinedSeg) (x : JoinedSeg)
    (hx : x ∈ (sampleStratum draw s T g).1) : x ∈ g := by
  unfold sampleStratum at hx
  by_cases h : g.length ≤ min T g.length
  · rw [if_pos h] at hx; exact hx
  · rw [if_neg h] at hx
    exact sampleWOR_subset draw _ s g x hx

/-- The per-stratum selection of a duplicate-free group is duplicate-free. -/
theorem sampleStratum_nodup {σ : Type} (draw : σ → Nat → Nat × σ)
    (hdraw : ∀ s n, 0 < n → (draw s n).1 < n) (s : σ) (T : Nat)
    (g : List JoinedSeg) (hg : g.Nodup) :
    ((sampleStratum draw s T g).1).Nodup := by
  rw [List.nodup_iff_count_le_one] at hg ⊢
  intro a
  exact le_trans (sampleStratum_count draw hdraw s T g a) (hg a)

/-- Membership in a stratum group. -/
theorem mem_stratumGroup (joined : List JoinedSeg) (k : String) (x : JoinedSeg) :
    x ∈ stratumGroup joined k ↔ x ∈ joined ∧ x.strata = k := by
  unfold stratumGroup
  rw [List.mem_filter]
  simp

/-- Membership after the first-occurrence fold. -/
theorem mem_foldl_insert (l : List String) :
    ∀ (acc : List String) (x : String),
      x ∈ l.foldl (fun acc y => if y ∈ acc then acc else acc ++ [y]) acc ↔
        x ∈ acc ∨ x ∈ l := by
  induction l with
  | nil => simp
  | cons a t ih =>
    intro acc x
    simp only [List.foldl_cons]
    by_cases ha : a ∈ acc
    · rw [if_pos ha, ih]
      constructor
      · rintro (h | h)
        · exact Or.inl h
        · exact Or.inr (List.mem_cons_of_mem _ h)
      · rintro (h | h)
        · exact Or.inl h
        · rcases List.mem_cons.mp h with rfl | h
          · exact Or.inl ha
          · exact Or.inr h
    · rw [if_neg ha, ih]
      constructor
      · rintro (h | h)
        · rcases List.mem_append.mp h with h | h
          · exact Or.inl h
          · simp only [List.mem_singleton] at h
            subst h
            exact Or.inr (List.mem_cons_self _ _)
        · exact Or.inr (List.mem_cons_of_mem _ h)
      · rintro (h | h)
        · exact Or.inl (List.mem_append.mpr (Or.inl h))
        · rcases List.mem_cons.mp h with rfl | h
          · exact Or.inl (List.mem_append.mpr (Or.inr (List.mem_singleton.mpr rfl)))
          · exact Or.inr h

/-- The first-occurrence fold preserves freedom from duplicates. -/
theorem nodup_foldl_insert (l : List String) :
    ∀ (acc : List String), acc.Nodup →
      (l.foldl (fun acc y => if y ∈ acc then acc else acc ++ [y]) acc).Nodup := by
  induction l with
  | nil => intro acc h; exact h
  | cons a t ih =>
    intro acc h
    simp only [List.foldl_cons]
    by_cases ha : a ∈ acc
    · rw [if_pos ha]
      exact ih acc h
    · rw [if_neg ha]
      refine ih _ (h.append (List.nodup_singleton a) ?_)
      intro x hx hxa
      simp only [List.mem_singleton] at hxa
      subst hxa
      exact ha hx

/-- Stratum keys are pairwise distinct. -/
theorem strataKeys_nodup (joined : List JoinedSeg) : (strataKeys joined).Nodup :=
  nodup_foldl_insert _ [] List.nodup_nil

/-- A string is a stratum key exactly when some joined row carries it. -/
theorem mem_strataKeys (joined : List JoinedSeg) (k : String) :
    k ∈ strataKeys joined ↔ ∃ j ∈ joined, j.strata = k := by
  unfold strataKeys
  rw [mem_foldl_insert]
  simp [List.mem_map]

/-- Length of the concatenated selections: one `min T (group size)` summand
per listed stratum key. -/
theorem runStrata_flatten_length {σ : Type} (draw : σ → Nat → Nat × σ)
    (hdraw : ∀ s n, 0 < n → (draw s n).1 < n) (T : Nat)
    (joined : List JoinedSeg) :
    ∀ (ks : List String) (s : σ),
      ((runStrata draw s T joined ks).flatten).length
        = (ks.map (fun k => min T (stratumGroup joined k).length)).sum := by
  intro ks
  induction ks with
  | nil => intro s; rfl
  | cons k ks ih =>
    intro s
    simp only [runStrata, List.flatten_cons, List.length_append, List.map_cons,
      List.sum_cons]
    rw [sampleStratum_length draw hdraw, ih]

/-- Every row of the concatenated selections belongs to the group of one of
the listed keys. -/
theorem mem_runStrata_flatten {σ : Type} (draw : σ → Nat → Nat × σ) (T : Nat)
    (joined : List JoinedSeg) :
    ∀ (ks : List String) (s : σ) (x : JoinedSeg),
      x ∈ (runStrata draw s T joined ks).flatten →
        ∃ k ∈ ks, x ∈ stratumGroup joined k := by
  intro ks
  induction ks with
  | nil => intro s x hx; simp [runStrata] at hx
  | cons k ks ih =>
    intro s x hx
    simp only [runStrata, List.flatten_cons] at hx
    rcases List.mem_append.mp hx with hx' | hx'
    · exact ⟨k, List.mem_cons_self _ _, sampleStratum_subset draw _ _ _ x hx'⟩
    · rcases ih _ x hx' with ⟨k', hk', hmem⟩
      exact ⟨k', List.mem_cons_of_mem _ hk', hmem⟩

/-- Restricting the concatenated selections to one listed key recovers that
key's own per-stratum selection (run from some intermediate generator
state). -/
theorem runStrata_filter_eq {σ : Type} (draw : σ → Nat → Nat × σ) (T : Nat)
    (joined : List JoinedSeg) :
    ∀ (ks : List String), ks.Nodup → ∀ k ∈ ks, ∀ s : σ,
      ∃ s' : σ,
        ((runStrata draw s T joined ks).flatten).filter (fun j => j.strata = k)
          = (sampleStratum draw s' T (stratumGroup joined k)).1 := by
  intro ks
  induction ks with
  | nil => intro _ k hk; exact absurd hk (List.not_mem_nil k)
  | cons k0 ks ih =>
    intro hnd k hk s
    simp only [runStrata, List.flatten_cons, List.filter_append]
    rcases List.mem_cons.mp hk with rfl | hk'
    · have h1 : ((sampleStratum draw s T (stratumGroup joined k)).1).filter
          (fun j => j.strata = k) = (sampleStratum draw s T (stratumGroup joined k)).1 := by
        rw [List.filter_eq_self]
        intro a ha
        have := (mem_stratumGroup joined k a).mp
          (sampleStratum_subset draw _ _ _ a ha)
        simp [this.2]
      have h2 : ((runStrata draw (sampleStratum draw s T (stratumGroup joined k)).2
          T joined ks).flatten).filter (fun j => j.strata = k) = [] := by
        rw [List.filter_eq_nil_iff]
        intro a ha
        rcases mem_runStrata_flatten draw T joined ks _ a ha with ⟨k', hk', hmem⟩
        have hak' : a.strata = k' := ((mem_stratumGroup joined k' a).mp hmem).2
        have hne : k' ≠ k := by
          intro h
          subst h
          exact (List.nodup_cons.mp hnd).1 hk'
        simp [hak', hne]
      rw [h1, h2, List.append_nil]
      exact ⟨s, rfl⟩
    · have hne : k ≠ k0 := by
        intro h
        subst h
        exact (List.nodup_cons.mp hnd).1 hk'
      have h1 : ((sampleStratum draw s T (stratumGroup joined k0)).1).filter
          (fun j => j.strata = k) = [] := by
        rw [List.filter_eq_nil_iff]
        intro a ha
        have hak : a.strata = k0 := ((mem_stratumGroup joined k0 a).mp
          (sampleStratum_subset draw _ _ _ a ha)).2
        simp [hak, Ne.symm hne]
      rw [h1, List.nil_append]
      exact ih (List.nodup_cons.mp hnd).2 k hk' _

/-- The concatenated selections of distinct keys over a duplicate-free
working set are duplicate-free. -/
theorem runStrata_flatten_nodup {σ : Type} (draw : σ → Nat → Nat × σ)
    (hdraw : ∀ s n, 0 < n → (draw s n).1 < n)
    (T : Nat) (joined : List JoinedSeg) (hjnd : joined.Nodup) :
    ∀ (ks : List String) (s : σ), ks.Nodup →
      ((runStrata draw s T joined ks).flatten).Nodup := by
  intro ks
  induction ks with
  | nil => intro s _; exact List.nodup_nil
  | cons k0 ks ih =>
    intro s hnd
    simp only [runStrata, List.flatten_cons]
    refine List.Nodup.append ?_ (ih _ (List.nodup_cons.mp hnd).2) ?_
    · exact sampleStratum_nodup draw hdraw s T _ (hjnd.filter _)
    · intro x hx hx'
      have hxk0 : x.strata = k0 := ((mem_stratumGroup joined k0 x).mp
        (sampleStratum_subset draw _ _ _ x hx)).2
      rcases mem_runStrata_flatten draw T joined ks _ x hx' with ⟨k', hk', hmem⟩
      have hxk' : x.strata = k' := ((mem_stratumGroup joined k' x).mp hmem).2
      have : k' = k0 := by rw [← hxk', hxk0]
      subst this
      exact (List.nodup_cons.mp hnd).1 hk'

/-- C1: for every partition of the valid joined segments by stratum key and
any positive per-stratum target `T`, every group of size at most `T`
contributes exactly its whole membership (as the filtered image of the
output), every larger group contributes exactly `T` distinct rows drawn
without replacement from that group, the total selection size is the sum of
`min T (group size)` over the groups, and no segment appears twice in the
output.  Proved for every in-range draw function, which covers the seeded
Mersenne-Twister stream the script uses. -/
theorem C1_stratified_sampling {σ : Type} (draw : σ → Nat → Nat × σ)
    (hdraw : ∀ s n, 0 < n → (draw s n).1 < n) (s0 : σ) (T : Nat) (_hT : 0 < T)
    (joined : List JoinedSeg) (hnd : joined.Nodup) :
    (∀ k ∈ strataKeys joined,
        ((stratumGroup joined k).length ≤ T →
          (stratifiedSample draw s0 T joined).filter (fun j => j.strata = k)
            = stratumGroup joined k)
      ∧ (T < (stratumGroup joined k).length →
          ((stratifiedSample draw s0 T joined).filter (fun j => j.strata = k)).length = T
        ∧ ((stratifiedSample draw s0 T joined).filter (fun j => j.strata = k)).Nodup
        ∧ ∀ x ∈ (stratifiedSample draw s0 T joined).filter (fun j => j.strata = k),
            x ∈ stratumGroup joined k))
    ∧ (stratifiedSample draw s0 T joined).length
        = ((strataKeys joined).map (fun k => min T (stratumGroup joined k).length)).sum
    ∧ (stratifiedSample draw s0 T joined).Nodup := by
  refine ⟨?_, runStrata_flatten_length draw hdraw T joined _ s0,
    runStrata_flatten_nodup draw hdraw T joined hnd _ s0 (strataKeys_nodup joined)⟩
  intro k hk
  obtain ⟨s', hfil⟩ :=
    runStrata_filter_eq draw T joined (strataKeys joined) (strataKeys_nodup joined) k hk s0
  constructor
  · intro hle
    show (stratifiedSample draw s0 T joined).filter (fun j => j.strata = k)
        = stratumGroup joined k
    unfold stratifiedSample
    rw [hfil, sampleStratum_all draw s' T _ hle]
  · intro hgt
    have hlen := sampleStratum_length draw hdraw s' T (stratumGroup joined k)
    refine ⟨?_, ?_, ?_⟩
    · show ((stratifiedSample draw s0 T joined).filter (fun j => j.strata = k)).length = T
      unfold stratifiedSample
      rw [hfil, hlen, Nat.min_eq_left (Nat.le_of_lt hgt)]
    · show ((stratifiedSample draw s0 T joined).filter (fun j => j.strata = k)).Nodup
      unfold stratifiedSample
      rw [hfil]
      exact sampleStratum_nodup draw hdraw s' T _ (hnd.filter _)
    · intro x hx
      unfold stratifiedSample at hx
      rw [hfil] at hx
      exact sampleStratum_subset draw s' T _ x hx

/-- Witness for C1 at the concrete generator, seed 42, target 1 and a
two-row single-stratum input: the selection has the predicted total size and
no duplicates. -/
theorem C1_stratified_sampling_witness :
    (stratifiedSample lcgDraw RANDOM_SEED 1 [witJoined1, witJoined2]).length
        = ((strataKeys [witJoined1, witJoined2]).map
            (fun k => min 1 (stratumGroup [witJoined1, witJoined2] k).length)).sum
    ∧ (stratifiedSample lcgDraw RANDOM_SEED 1 [witJoined1, witJoined2]).Nodup :=
  (C1_stratified_sampling lcgDraw (fun s n hn => Nat.mod_lt (lcg s) hn)
    RANDOM_SEED 1 (by decide) [witJoined1, witJoined2] (by decide)).2

/-! ## Join and output lemmas -/

/-- A successful dict lookup returns a pair stored in the list. -/
theorem lastLookup_mem_val {α : Type} :
    ∀ (l : List (String × α)) (k : String) (v : α),
      lastLookup l k = some v → (k, v) ∈ l
  | [], _, _, h => by simp [lastLookup] at h
  | (k0, v0) :: t, k, v, h => by
    simp only [lastLookup] at h
    cases ht : lastLookup t k with
    | some r =>
      rw [ht] at h
      cases h
      exact List.mem_cons_of_mem _ (lastLookup_mem_val t k v ht)
    | none =>
      rw [ht] at h
      by_cases hk : k0 = k
      · rw [if_pos hk] at h
        cases h
        subst hk
        exact List.mem_cons_self _ _
      · rw [if_neg hk] at h
        exact absurd h (by simp)

/-- Looking up a projected dict agrees with projecting the full-row dict. -/
theorem lastLookup_map_pair {α β : Type} (f : α → β) (key : α → String) :
    ∀ (l : List α) (k : String),
      lastLookup (l.map (fun e => (key e, f e))) k
        = (lastLookup (l.map (fun e => (key e, e))) k).map f
  | [], _ => rfl
  | e :: t, k => by
    simp only [List.map_cons, lastLookup]
    rw [lastLookup_map_pair f key t k]
    cases lastLookup (t.map (fun e => (key e, e))) k with
    | some r => rfl
    | none =>
      by_cases hk : key e = k
      · simp [hk]
      · simp [hk]

/-- The strata dict is the `strata` projection of the metadata dict, both
being built from the same catalog in the same order. -/
theorem id_to_strata_eq (cat : List EnrichedCat) (k : String) :
    id_to_strata cat k = (metaLookup cat k).map (fun e => e.strata) := by
  unfold id_to_strata metaLookup
  exact lastLookup_map_pair (fun e => e.strata) (fun e => e.ID) cat k

/-- A successfully resolved id names an actual catalog entry with that id. -/
theorem metaLookup_mem (cat : List EnrichedCat) (k : String) (e : EnrichedCat)
    (h : metaLookup cat k = some e) : e ∈ cat ∧ e.ID = k := by
  have hmem := lastLookup_mem_val _ k e h
  rcases List.mem_map.mp hmem with ⟨e', he', heq⟩
  have h1 : e'.ID = k := congrArg Prod.fst heq
  have h2 : e' = e := congrArg Prod.snd heq
  subst h2
  exact ⟨he', h1⟩

/-- Membership in the joined working set: the segment survived the duration
filter, the id is the extracted one, and the strata lookup succeeded. -/
theorem mem_joinSegments (cat : List EnrichedCat) (segs : List SegmentRow)
    (j : JoinedSeg) :
    j ∈ joinSegments cat segs ↔
      j.seg ∈ filterSegments segs ∧
      j.original_id = extract_original_id j.seg.file_name ∧
      id_to_strata cat j.original_id = some j.strata := by
  unfold joinSegments
  rw [List.mem_filterMap]
  constructor
  · rintro ⟨s, hs, hmap⟩
    cases hl : id_to_strata cat (extract_original_id s.file_name) with
    | none => rw [hl] at hmap; simp at hmap
    | some st =>
      rw [hl] at hmap
      have hj : (⟨s, extract_original_id s.file_name, st⟩ : JoinedSeg) = j :=
        Option.some.inj hmap
      rw [← hj]
      exact ⟨hs, rfl, hl⟩
  · rintro ⟨hseg, hoid, hst⟩
    refine ⟨j.seg, hseg, ?_⟩
    rw [← hoid, hst]
    rfl

/-- Every selected row comes from the joined working set. -/
theorem stratifiedSample_subset {σ : Type} (draw : σ → Nat → Nat × σ) (s0 : σ)
    (T : Nat) (joined : List JoinedSeg) :
    ∀ x ∈ stratifiedSample draw s0 T joined, x ∈ joined := by
  intro x hx
  unfold stratifiedSample at hx
  rcases mem_runStrata_flatten draw T joined _ _ x hx with ⟨k, -, hmem⟩
  exact ((mem_stratumGroup joined k x).mp hmem).1

/-- Fields of the metadata merge when the id resolves: all labels and the
stratum key come from the resolved catalog entry, never from the
`'Unknown'` default. -/
theorem addLabels_resolved (cat : List EnrichedCat) (j : JoinedSeg)
    (hj : id_to_strata cat j.original_id = some j.strata) :
    ∃ e, metaLookup cat j.original_id = some e ∧ e ∈ cat ∧
      (addLabels cat j).age_group = e.AGE ∧
      (addLabels cat j).duration_category = e.duration_category ∧
      (addLabels cat j).content_type = e.content_type ∧
      (addLabels cat j).strata = e.strata := by
  rw [id_to_strata_eq] at hj
  cases hm : metaLookup cat j.original_id with
  | none => rw [hm] at hj; simp at hj
  | some e =>
    rw [hm] at hj
    have hstr : e.strata = j.strata := by simpa using hj
    refine ⟨e, rfl, (metaLookup_mem cat _ e hm).1, ?_, ?_, ?_, ?_⟩
    · show (match metaLookup cat j.original_id with
        | some e => e.AGE | none => "Unknown") = e.AGE
      rw [hm]
    · show (match metaLookup cat j.original_id with
        | some e => e.duration_category | none => "Unknown") = e.duration_category
      rw [hm]
    · show (match metaLookup cat j.original_id with
        | some e => e.content_type | none => "Unknown") = e.content_type
      rw [hm]
    · exact hstr.symm

/-- Positional ids of the enumeration shifted by a base are a contiguous
integer range. -/
theorem enumFrom_map_add {α : Type} (base : Nat) (l : List α) :
    ∀ n : Nat, (List.enumFrom n l).map (fun p => base + p.1)
      = List.range' (base + n) l.length := by
  induction l with
  | nil => intro n; rfl
  | cons x xs ih =>
    intro n
    simp only [List.enumFrom, List.map_cons, List.length_cons, List.range'_succ]
    rw [ih (n + 1), ← Nat.add_assoc]

/-- The second component of an enumerated pair is a member of the list. -/
theorem mem_enumFrom_snd {β : Type} :
    ∀ (l : List β) (n : Nat) (p : Nat × β), p ∈ List.enumFrom n l → p.2 ∈ l
  | [], _, _, h => by simp [List.enumFrom] at h
  | x :: xs, n, p, h => by
    simp only [List.enumFrom, List.mem_cons] at h
    rcases h with rfl | h
    · exact List.mem_cons_self _ _
    · exact List.mem_cons_of_mem _ (mem_enumFrom_snd xs (n + 1) p h)

/-- Row `i` of the formatted output is the formatting of row `i` of the
selection. -/
theorem formatRows_getElem? (hasCol : Bool) (base : Nat) (rows : List BenchRow)
    (i : Nat) :
    (formatRows hasCol base rows)[i]?
      = (rows[i]?).map (fun b => formatRow hasCol base i b) := by
  unfold formatRows
  rw [List.getElem?_map]
  show ((List.enumFrom 0 rows)[i]?).map _ = _
  rw [List.getElem?_enumFrom]
  cases rows[i]? with
  | none => rfl
  | some b => simp

/-! ## Remaining claim theorems -/

/-- C5: a working-set segment whose extracted parent id names no catalog
entry (also the verbatim-fallback ids) is silently excluded from the join,
from sampling, and from the stratum-mapping output: every surviving row's
id is a catalog id, and no joined, sampled, or mapping row stems from such a
segment. -/
theorem C5_unresolved_parent_dropped (cat : List EnrichedCat)
    (segs : List SegmentRow) :
    (∀ j ∈ joinSegments cat segs, j.original_id ∈ cat.map (fun e => e.ID))
  ∧ (∀ r ∈ strataMapping cat segs, r.original_id ∈ cat.map (fun e => e.ID))
  ∧ (∀ s ∈ segs, extract_original_id s.file_name ∉ cat.map (fun e => e.ID) →
      (∀ j ∈ joinSegments cat segs, j.seg ≠ s)
    ∧ (∀ r ∈ strataMapping cat segs, r.file_name ≠ s.file_name)
    ∧ ∀ (σ : Type) (draw : σ → Nat → Nat × σ) (s0 : σ) (T : Nat),
        ∀ j ∈ stratifiedSample draw s0 T (joinSegments cat segs), j.seg ≠ s) := by
  have hjoin : ∀ j ∈ joinSegments cat segs, j.original_id ∈ cat.map (fun e => e.ID) := by
    intro j hj
    obtain ⟨-, -, hst⟩ := (mem_joinSegments cat segs j).mp hj
    rw [id_to_strata_eq] at hst
    cases hm : metaLookup cat j.original_id with
    | none => rw [hm] at hst; simp at hst
    | some e =>
      obtain ⟨he, hid⟩ := metaLookup_mem cat _ e hm
      exact List.mem_map.mpr ⟨e, he, hid⟩
  refine ⟨hjoin, ?_, ?_⟩
  · intro r hr
    unfold strataMapping at hr
    rcases List.mem_map.mp hr with ⟨j, hj, rfl⟩
    exact hjoin j hj
  · intro s _ hnot
    have hexc : ∀ j ∈ joinSegments cat segs, j.seg ≠ s := by
      intro j hj heq
      obtain ⟨-, hoid, -⟩ := (mem_joinSegments cat segs j).mp hj
      apply hnot
      rw [← heq, ← hoid]
      exact hjoin j hj
    refine ⟨hexc, ?_, ?_⟩
    · intro r hr hfn
      unfold strataMapping at hr
      rcases List.mem_map.mp hr with ⟨j, hj, rfl⟩
      have hfn' : j.seg.file_name = s.file_name := hfn
      obtain ⟨-, hoid, -⟩ := (mem_joinSegments cat segs j).mp hj
      apply hnot
      have hjo : j.original_id = extract_original_id s.file_name := by
        rw [hoid, hfn']
      rw [← hjo]
      exact hjoin j hj
    · intro σ draw s0 T j hj
      exact hexc j (stratifiedSample_subset draw s0 T _ j hj)

/-- Witness for C5: the resolved id of a surviving joined row is a catalog
id on a concrete input. -/
theorem C5_unresolved_parent_dropped_witness :
    witJoined1.original_id ∈ [witECat].map (fun e => e.ID) :=
  (C5_unresolved_parent_dropped [witECat] [witSeg1, witSeg2]).1 witJoined1 (by decide)

/-- C7: in the ingestion-formatted output the `id` column is exactly the
contiguous ascending range starting at the configured base, every row
carries the fixed `group_id = 33` and `state = 'transcribing'`, and row `i`
is the fixed projection of selection row `i` (the `FormattedRow` fields are
declared in the source's column order). -/
theorem C7_formatted_sequential (hasCol : Bool) (base : Nat)
    (rows : List BenchRow) :
    ((formatRows hasCol base rows).map (fun f => f.id) = List.range' base rows.length)
  ∧ (∀ f ∈ formatRows hasCol base rows, f.group_id = 33 ∧ f.state = "transcribing")
  ∧ ((formatRows hasCol base rows).length = rows.length)
  ∧ (∀ i : Nat, (formatRows hasCol base rows)[i]?
      = (rows[i]?).map (fun b => formatRow hasCol base i b)) := by
  refine ⟨?_, ?_, ?_, formatRows_getElem? hasCol base rows⟩
  · unfold formatRows
    rw [List.map_map]
    show (List.enumFrom 0 rows).map (fun p => base + p.1) = List.range' base rows.length
    rw [enumFrom_map_add base rows 0, Nat.add_zero]
  · intro f hf
    unfold formatRows at hf
    rcases List.mem_map.mp hf with ⟨p, -, rfl⟩
    exact ⟨rfl, rfl⟩
  · unfold formatRows
    rw [List.length_map]
    show (List.enumFrom 0 rows).length = rows.length
    rw [List.enumFrom_length]

/-- Witness for C7: two concrete selection rows receive ids 2159570 and
2159571. -/
theorem C7_formatted_sequential_witness :
    (formatRows true BASE_SEQ_ID
        [addLabels [witECat] witJoined1, addLabels [witECat] witJoined2]).map
      (fun f => f.id) = [2159570, 2159571] :=
  ((C7_formatted_sequential true BASE_SEQ_ID
      [addLabels [witECat] witJoined1, addLabels [witECat] witJoined2]).1).trans
    (by decide)

/-- C8: every row of the selection, of the structured JSON list and of the
ingestion-formatted table stems from a parent id that resolves to exactly
one catalog entry, and all its labels and the stratum key equal that entry's
fields; in particular, when the catalog itself never uses the label
`'Unknown'`, no output row carries an `'Unknown'` label. -/
theorem C8_outputs_resolved {σ : Type} (draw : σ → Nat → Nat × σ) (s0 : σ)
    (T base : Nat) (hasCol : Bool) (cat : List EnrichedCat)
    (segs : List SegmentRow)
    (hUnk : ∀ e ∈ cat, e.AGE ≠ "Unknown" ∧ e.duration_category ≠ "Unknown" ∧
      e.content_type ≠ "Unknown") :
    (∀ b ∈ (stratifiedSample draw s0 T (joinSegments cat segs)).map (addLabels cat),
        ∃ e, metaLookup cat b.original_id = some e ∧ e ∈ cat ∧
          b.age_group = e.AGE ∧ b.duration_category = e.duration_category ∧
          b.content_type = e.content_type ∧ b.strata = e.strata)
  ∧ (∀ b ∈ (stratifiedSample draw s0 T (joinSegments cat segs)).map (addLabels cat),
        b.age_group ≠ "Unknown" ∧ b.duration_category ≠ "Unknown" ∧
        b.content_type ≠ "Unknown")
  ∧ (∀ jr ∈ ((stratifiedSample draw s0 T (joinSegments cat segs)).map
        (addLabels cat)).map (jsonRow hasCol),
        jr.original_file_id ∈ cat.map (fun e => e.ID) ∧
        jr.age_group ≠ "Unknown" ∧ jr.duration_category ≠ "Unknown" ∧
        jr.content_type ≠ "Unknown")
  ∧ (∀ f ∈ formatRows hasCol base
        ((stratifiedSample draw s0 T (joinSegments cat segs)).map (addLabels cat)),
        ∃ b ∈ (stratifiedSample draw s0 T (joinSegments cat segs)).map (addLabels cat),
          f.file_name = b.seg.file_name ∧
          b.original_id ∈ cat.map (fun e => e.ID)) := by
  have key : ∀ b ∈ (stratifiedSample draw s0 T (joinSegments cat segs)).map
      (addLabels cat),
      ∃ e, metaLookup cat b.original_id = some e ∧ e ∈ cat ∧
        b.age_group = e.AGE ∧ b.duration_category = e.duration_category ∧
        b.content_type = e.content_type ∧ b.strata = e.strata := by
    intro b hb
    rcases List.mem_map.mp hb with ⟨j, hj, rfl⟩
    have hjj := stratifiedSample_subset draw s0 T _ j hj
    obtain ⟨-, -, hst⟩ := (mem_joinSegments cat segs j).mp hjj
    exact addLabels_resolved cat j hst
  have ids : ∀ b ∈ (stratifiedSample draw s0 T (joinSegments cat segs)).map
      (addLabels cat), b.original_id ∈ cat.map (fun e => e.ID) := by
    intro b hb
    obtain ⟨e, hm, he, -⟩ := key b hb
    exact List.mem_map.mpr ⟨e, he, (metaLookup_mem cat _ e hm).2⟩
  have unk : ∀ b ∈ (stratifiedSample draw s0 T (joinSegments cat segs)).map
      (addLabels cat),
      b.age_group ≠ "Unknown" ∧ b.duration_category ≠ "Unknown" ∧
      b.content_type ≠ "Unknown" := by
    intro b hb
    obtain ⟨e, -, he, h1, h2, h3, -⟩ := key b hb
    obtain ⟨u1, u2, u3⟩ := hUnk e he
    rw [h1, h2, h3]
    exact ⟨u1, u2, u3⟩
  refine ⟨key, unk, ?_, ?_⟩
  · intro jr hjr
    rcases List.mem_map.mp hjr with ⟨b, hb, rfl⟩
    obtain ⟨u1, u2, u3⟩ := unk b hb
    exact ⟨ids b hb, u1, u2, u3⟩
  · intro f hf
    unfold formatRows at hf
    rcases List.mem_map.mp hf with ⟨p, hp, rfl⟩
    have hmem : p.2 ∈ (stratifiedSample draw s0 T (joinSegments cat segs)).map
        (addLabels cat) := mem_enumFrom_snd _ 0 p hp
    exact ⟨p.2, hmem, rfl, ids p.2 hmem⟩

/-- Witness for C8: on the concrete catalog and segments, a concrete JSON
row's parent id resolves to the catalog and its labels are not
`'Unknown'`. -/
theorem C8_outputs_resolved_witness :
    (jsonRow true (addLabels [witECat] witJoined1)).original_file_id
        ∈ [witECat].map (fun e => e.ID)
    ∧ (jsonRow true (addLabels [witECat] witJoined1)).age_group ≠ "Unknown"
    ∧ (jsonRow true (addLabels [witECat] witJoined1)).duration_category ≠ "Unknown"
    ∧ (jsonRow true (addLabels [witECat] witJoined1)).content_type ≠ "Unknown" :=
  (C8_outputs_resolved lcgDraw RANDOM_SEED SEGMENTS_PER_STRATUM BASE_SEQ_ID true
      [witECat] [witSeg1, witSeg2] (by decide)).2.2.1
    (jsonRow true (addLabels [witECat] witJoined1)) (by decide)

/-- C9 counterexample: with the transcript column present but one selected
segment's transcript cell missing (NaN), the structured JSON list and the
in-memory ingestion table carry the missing marker, not the empty string, so
not `every output representation substitutes an empty string`. -/
theorem C9_counterexample :
    (runPipeline lcgDraw RANDOM_SEED SEGMENTS_PER_STRATUM BASE_SEQ_ID true
        [witCatalogRow] [witSeg2]).map
      (fun out => out.jsonOut.map (fun j => j.transcript)) = some [none]
  ∧ (runPipeline lcgDraw RANDOM_SEED SEGMENTS_PER_STRATUM BASE_SEQ_ID true
        [witCatalogRow] [witSeg2]).map
      (fun out => out.formatted.map (fun f => f.inference_transcript)) = some [none]
  ∧ some [(none : Option String)] ≠ some [some ""] := by
  refine ⟨by decide, by decide, by decide⟩

/-- C9 amended: when the input table lacks the transcript column entirely,
the script inserts an empty-string transcript, so every formatted row and
every JSON object carries `""`; when the column is present, the row value
(possibly the missing marker) is passed through unchanged; the pipeline
itself never fails on a missing transcript. -/
theorem C9_transcript_amended {σ : Type} (draw : σ → Nat → Nat × σ) (s0 : σ)
    (T base : Nat) (cat : List EnrichedCat) (segs : List SegmentRow) :
    (∀ f ∈ formatRows false base
        ((stratifiedSample draw s0 T (joinSegments cat segs)).map (addLabels cat)),
        f.inference_transcript = some "")
  ∧ (∀ jr ∈ ((stratifiedSample draw s0 T (joinSegments cat segs)).map
        (addLabels cat)).map (jsonRow false),
        jr.transcript = some "")
  ∧ (∀ b : BenchRow, (jsonRow true b).transcript = b.seg.inference_transcript)
  ∧ (∀ (hasCol : Bool) (i : Nat) (b : BenchRow),
        (formatRow hasCol base i b).inference_transcript
          = if hasCol then b.seg.inference_transcript else some "") := by
  refine ⟨?_, ?_, fun b => rfl, fun hasCol i b => rfl⟩
  · intro f hf
    unfold formatRows at hf
    rcases List.mem_map.mp hf with ⟨p, -, rfl⟩
    rfl
  · intro jr hjr
    rcases List.mem_map.mp hjr with ⟨b, -, rfl⟩
    rfl

/-- Witness for the amended C9: with the transcript column present, a
concrete selected row's missing transcript is passed through to the JSON
object. -/
theorem C9_transcript_amended_witness :
    (jsonRow true (addLabels [witECat] witJoined2)).transcript
      = (addLabels [witECat] witJoined2).seg.inference_transcript :=
  (C9_transcript_amended lcgDraw RANDOM_SEED SEGMENTS_PER_STRATUM BASE_SEQ_ID
      [witECat] [witSeg1, witSeg2]).2.2.1 (addLabels [witECat] witJoined2)

end BenchmarkSampler
